import Mathlib

/-!
Shallow embedding of the Hyperfabric MCP server (`src/main.ts`) in Lean 4.

The server converts an OpenAPI specification into callable tool descriptors
and dispatches tool calls back to HTTP requests.  The embedding below models
the JSON data the TypeScript code manipulates (`any`-typed schema nodes,
argument mappings), the naming function `generateToolName`, the reference
resolver `resolveSchemaRef`, the bounded deep resolver `deepResolveSchema`,
the dispatch scan of `executeApiCall` (URL building, query mapping, request
body construction), and the tool-call handler's error mapping.

Conventions used throughout:
* JavaScript `undefined` is modelled by `Option.none`; JSON values that are
  present are `Option.some`.
* JavaScript truthiness is modelled by `Json.truthy` (`null`, `false`, `0`,
  and the empty string are falsy; objects and arrays are always truthy).
* Mutation of JS objects is modelled functionally: a field assignment
  `o.k = v` becomes `o.setField k v`; the value of a tree-shaped node after
  the code's in-place updates equals the functional result.
* JSON numbers are modelled as integers; no claim depends on fractional
  numeric values.
-/

/-- A JSON value, as manipulated by the untyped (`any`) TypeScript code.
Objects are ordered association lists, matching JS object key enumeration
order (`Object.entries` / `Object.keys`). -/
inductive Json where
  | null
  | bool (b : Bool)
  | num (n : Int)
  | str (s : String)
  | arr (elems : List Json)
  | obj (fields : List (String × Json))

/-- First-match association-list lookup, modelling JS object property access
`o[k]` (`none` models `undefined`). -/
def lookupA {α : Type} : List (String × α) → String → Option α
  | [], _ => none
  | (k, v) :: rest, key => if k = key then some v else lookupA rest key

/-- Property read `j[k]`: a field of an object, `undefined` otherwise. -/
def Json.getField : Json → String → Option Json
  | .obj fs, key => lookupA fs key
  | _, _ => none

/-- JS truthiness of a JSON value: `null`, `false`, `0` and `""` are falsy;
arrays and objects are always truthy. -/
def Json.truthy : Json → Bool
  | .null => false
  | .bool b => b
  | .num n => n != 0
  | .str s => s ≠ ""
  | .arr _ => true
  | .obj _ => true

/-- JS property assignment on an association list: overwrite the first
binding of `key` if present, else append a new binding (JS objects keep
insertion order for new keys). -/
def setA {α : Type} : List (String × α) → String → α → List (String × α)
  | [], key, v => [(key, v)]
  | (k, w) :: rest, key, v =>
      if k = key then (key, v) :: rest else (k, w) :: setA rest key v

/-- Field assignment `o.k = v` on an object, modelled functionally.  The
TypeScript code only ever assigns to objects; on non-objects this is a
no-op. -/
def Json.setField : Json → String → Json → Json
  | .obj fs, key, v => .obj (setA fs key v)
  | j, _, _ => j

/-- Kernel-reducible character-list splitting on a single separator,
modelling JS `String.prototype.split` with a one-character separator (the
only separator the source uses: `'/'`).  Yields the (possibly empty)
segments between separators, so `"/a/b"` splits to `["", "a", "b"]`. -/
def splitOnCharAux (sep : Char) : List Char → List Char → List String
  | [], acc => [⟨acc.reverse⟩]
  | c :: cs, acc =>
      if c = sep then (⟨acc.reverse⟩ : String) :: splitOnCharAux sep cs []
      else splitOnCharAux sep cs (c :: acc)

/-- JS `s.split(sep)` for a one-character separator. -/
def splitOnChar (sep : Char) (s : String) : List String :=
  splitOnCharAux sep s.toList []

/-- JS `Array.prototype.join(sep)` over strings (kernel-reducible, unlike
`String.intercalate`). -/
def joinSep (sep : String) : List String → String
  | [] => ""
  | [x] => x
  | x :: xs => x ++ sep ++ joinSep sep xs

/-- Whether the string begins with the given character (JS
`part.startsWith('\x7b')`). -/
def startsWithChar (c : Char) (s : String) : Bool :=
  match s.toList with
  | [] => false
  | c' :: _ => c' = c

/-- Character-wise string map (JS `String.prototype.replace` with a
single-character-class regex is such a map). -/
def mapChars (f : Char → Char) (s : String) : String :=
  ⟨s.toList.map f⟩

/-- Kernel-reducible uppercase (ASCII-relevant; method strings are ASCII). -/
def strToUpper (s : String) : String := mapChars Char.toUpper s

/-- Kernel-reducible lowercase. -/
def strToLower (s : String) : String := mapChars Char.toLower s

/-- The check `schema.$ref && typeof schema.$ref === 'string'` from
`main.ts` (lines 173 and 194): the `$ref` field if it is a truthy (i.e.
nonempty) string. -/
def Json.refString (j : Json) : Option String :=
  match j.getField "$ref" with
  | some (.str r) => if r = "" then none else some r
  | _ => none

/-- The guard of `deepResolveSchema` (line 189): JS values that are truthy
and of `typeof 'object'`, i.e. proper objects and arrays (`null` has
`typeof 'object'` but is already excluded by `!schema`). -/
def Json.isObjectLike : Json → Bool
  | .obj _ => true
  | .arr _ => true
  | _ => false

/-- One declared parameter of an operation, per the `OpenAPIOperation`
interface of `main.ts` (lines 49-55). -/
structure Param where
  name : String
  «in» : String
  required : Option Bool := none
  schema : Option Json := none
  description : Option String := none

/-- One method+path operation entry, per the `OpenAPIOperation` interface of
`main.ts` (lines 45-60).  An absent `parameters` array is modelled as `[]`
(the code's `if (operation.parameters)` guard followed by a loop behaves
identically on an absent array and on an empty one).  `requestBody` is kept
as raw JSON because the code passes it to `resolveSchemaRef`. -/
structure Operation where
  operationId : Option String := none
  summary : Option String := none
  description : Option String := none
  parameters : List Param := []
  requestBody : Option Json := none

/-- The loaded specification.  `root` is the raw parsed JSON document, used
by `$ref` resolution (which walks `this.openApiSpec` as an untyped object);
`paths` is the typed view of its `paths` member that the generation and
dispatch loops iterate (path key, then method key, then operation).  Path
item entries whose value is not a well-formed operation object are skipped
identically by generation (line 144) and dispatch (line 345), so the typed
view lists only the operation-valued entries. -/
structure Spec where
  root : Json
  paths : List (String × List (String × Operation))

/-- The opening-brace character of a path placeholder. -/
def lbrace : Char := Char.ofNat 123

/-- The path sanitisation of `generateToolName` (line 166): split on `/`,
drop empty segments and placeholder segments (those starting with an
opening brace). -/
def sanitizedSegments (path : String) : List String :=
  (splitOnChar '/' path).filter (fun part => part ≠ "" && !(startsWithChar lbrace part))

/-- The character class of the regex `[^a-zA-Z0-9_]` on line 167; matched
characters are replaced by underscores. -/
def sanitizeChar (c : Char) : Char :=
  if c.isAlphanum || c = '_' then c else '_'

/-- The fallback branch of `generateToolName` (lines 165-168): join the
sanitised path segments with `_`, replace non-alphanumeric characters with
`_`, and prefix the method. -/
def fallbackToolName (method path : String) : String :=
  method ++ "_" ++ mapChars sanitizeChar (joinSep "_" (sanitizedSegments path))

/-- `generateToolName` (lines 160-169): return `operation.operationId` when
it is truthy (a nonempty string — the interface types it as a string),
otherwise synthesise a name from the method and the sanitised path. -/
def generateToolName (method path : String) (op : Operation) : String :=
  match op.operationId with
  | some id => if id ≠ "" then id else fallbackToolName method path
  | none => fallbackToolName method path

/-- The pointer walk of `resolveSchemaRef` (lines 174-180): split the
reference on `/`, then walk the raw specification object part by part,
skipping `#` and optional-chaining missing members to `undefined`. -/
def derefPointer (root : Json) (r : String) : Option Json :=
  (splitOnChar '/' r).foldl
    (fun (acc : Option Json) part =>
      if part = "#" then acc else acc.bind (fun j => j.getField part))
    (some root)

/-- `resolveSchemaRef` (lines 171-185): if the node carries a truthy string
`$ref`, dereference the pointer against the raw specification and return
the result when it is truthy, else fall back to the original node
(`resolved || schema`, line 182).  Nodes with no (truthy string) `$ref` are
returned unchanged. -/
def resolveSchemaRef (root : Json) (schema : Json) : Json :=
  match schema.refString with
  | some r =>
      match derefPointer root r with
      | some v => if v.truthy then v else schema
      | none => schema
  | none => schema

/-- The recursion of `deepResolveSchema` (lines 187-211), indexed by the
remaining recursion budget: the code guards on `depth > 5` and recurses with
`depth + 1`, which is exactly a fuel of `6 - depth`.  At fuel `0` (depth
bound exceeded) and on non-object input the node is returned unchanged.
Otherwise: resolve a `$ref` on the node itself; then rewrite every entry of
a truthy object-typed `properties` member (JS `Object.entries` also
enumerates array elements, by index) and a truthy `items` member with the
recursively resolved child, as the code's in-place assignments do. -/
def deepResolveFuel (root : Json) : Nat → Json → Json
  | 0, schema => schema
  | fuel + 1, schema =>
      if schema.isObjectLike then
        let schema1 := if schema.refString.isSome then resolveSchemaRef root schema else schema
        let schema2 :=
          match schema1.getField "properties" with
          | some (.obj pf) =>
              schema1.setField "properties"
                (.obj (pf.map (fun (kv : String × Json) => (kv.1, deepResolveFuel root fuel kv.2))))
          | some (.arr xs) =>
              schema1.setField "properties"
                (.arr (xs.map (fun x => deepResolveFuel root fuel x)))
          | _ => schema1
        match schema2.getField "items" with
        | some it => if it.truthy then schema2.setField "items" (deepResolveFuel root fuel it) else schema2
        | none => schema2
      else schema

/-- `deepResolveSchema(schema, depth)` (lines 187-211), via its fuel
formulation: recursion budget `6 - depth`, so `depth > 5` means no budget
and the node is returned unchanged. -/
def deepResolveSchema (root : Json) (schema : Json) (depth : Nat) : Json :=
  deepResolveFuel root (6 - depth) schema

/-- The inner loop of the dispatch scan in `executeApiCall` (lines 344-354):
scan one path item's method entries, recomputing `generateToolName`, and
return the first `\x7bmethod, path, operation\x7d` whose recomputed name equals
the requested tool name. -/
def findInPathItem (pathKey : String) (toolName : String) :
    List (String × Operation) → Option (String × String × Operation)
  | [] => none
  | (method, op) :: rest =>
      if generateToolName method pathKey op = toolName then some (method, pathKey, op)
      else findInPathItem pathKey toolName rest

/-- The outer loop of the dispatch scan in `executeApiCall` (lines 341-356):
iterate path entries in order, breaking at the first method entry whose
recomputed tool name matches. -/
def findOperation : List (String × List (String × Operation)) → String →
    Option (String × String × Operation)
  | [], _ => none
  | (pathKey, items) :: rest, toolName =>
      match findInPathItem pathKey toolName items with
      | some found => some found
      | none => findOperation rest toolName

/-- An entry of the double iteration over the specification: method, path
key, and operation, in the shape `executeApiCall` stores into
`foundOperation`. -/
abbrev Entry := String × String × Operation

/-- The tool name an entry generates, recomputed as on line 348. -/
def entryName (e : Entry) : String := generateToolName e.1 e.2.1 e.2.2

/-- All (method, path, operation) entries of the specification, in the
iteration order shared by `generateTools` (lines 142-155) and the dispatch
scan (lines 343-356): outer loop over path entries, inner loop over method
entries. -/
def specEntries (paths : List (String × List (String × Operation))) : List Entry :=
  paths.flatMap (fun pe => pe.2.map (fun me => (me.1, pe.1, me.2)))

/-- JavaScript `String(value)` coercion of a JSON value, as applied by
`encodeURIComponent(value)` on line 372: strings pass through, numbers and
booleans render, `null` renders as `"null"`, arrays join their elements with
commas (with `null` elements rendering empty, per `Array.prototype.join`),
and plain objects render as `[object Object]`. -/
def Json.jsToString : Json → String
  | .null => "null"
  | .bool b => cond b "true" "false"
  | .num n => toString n
  | .str s => s
  | .arr xs =>
      joinSep "," (xs.attach.map (fun x =>
        match x.1 with | .null => "" | _ => Json.jsToString x.1))
  | .obj _ => "[object Object]"
decreasing_by
  have := List.sizeOf_lt_of_mem x.2
  cases x
  simp_all
  omega

/-- Uppercase hexadecimal digit for percent-encoding. -/
def hexDigitUpper (n : Nat) : Char :=
  (("0123456789ABCDEF".toList).getD n '0')

/-- UTF-8 encoding of one character, as the byte values
`encodeURIComponent` percent-encodes. -/
def utf8Bytes (c : Char) : List Nat :=
  let n := c.toNat
  if n < 0x80 then [n]
  else if n < 0x800 then [0xC0 ||| (n >>> 6), 0x80 ||| (n &&& 0x3F)]
  else if n < 0x10000 then
    [0xE0 ||| (n >>> 12), 0x80 ||| ((n >>> 6) &&& 0x3F), 0x80 ||| (n &&& 0x3F)]
  else
    [0xF0 ||| (n >>> 18), 0x80 ||| ((n >>> 12) &&& 0x3F),
      0x80 ||| ((n >>> 6) &&& 0x3F), 0x80 ||| (n &&& 0x3F)]

/-- The characters `encodeURIComponent` leaves unescaped: ASCII
alphanumerics and `- _ . ! ~ * ' ( )`. -/
def isUnescapedURIChar (c : Char) : Bool :=
  c.isAlphanum || c = '-' || c = '_' || c = '.' || c = '!' || c = '~' ||
    c = '*' || c = '\'' || c = '(' || c = ')'

/-- JavaScript `encodeURIComponent`: unescaped characters pass through,
every other character is replaced by the uppercase percent-encoding of its
UTF-8 bytes. -/
def encodeURIComponent (s : String) : String :=
  String.join (s.toList.map (fun c =>
    if isUnescapedURIChar c then String.singleton c
    else String.join ((utf8Bytes c).map (fun b =>
      "%" ++ String.singleton (hexDigitUpper (b / 16)) ++ String.singleton (hexDigitUpper (b % 16))))))

/-- Whether `pat` is an initial segment of the character list. -/
def leadsWith : List Char → List Char → Bool
  | [], _ => true
  | _ :: _, [] => false
  | p :: ps, c :: cs => p = c && leadsWith ps cs

/-- Drop as many characters as `pat` has from the front of the list. -/
def dropLeading : List Char → List Char → List Char
  | [], s => s
  | _ :: _, [] => []
  | _ :: ps, _ :: cs => dropLeading ps cs

/-- Leftmost occurrence of the (nonempty) pattern in the list: the
characters before it and the characters after it, if it occurs. -/
def splitAtFirst (pat : List Char) : List Char → Option (List Char × List Char)
  | [] => none
  | c :: cs =>
      if leadsWith pat (c :: cs) then some ([], dropLeading pat (c :: cs))
      else
        match splitAtFirst pat cs with
        | some (pre, post) => some (c :: pre, post)
        | none => none

/-- JavaScript `String.prototype.replace` with a string pattern (line 372):
replace only the leftmost occurrence of `pat` (nonempty here: it is always
a `\x7bname\x7d` placeholder, and the percent-encoded replacement contains
no `$` patterns, so no substitution patterns apply). -/
def replaceFirst (s pat repl : String) : String :=
  match splitAtFirst pat.toList s.toList with
  | some (pre, post) => (⟨pre⟩ : String) ++ repl ++ (⟨post⟩ : String)
  | none => s

/-- One step of the parameter loop of `executeApiCall` (lines 367-378) over
the accumulated `(url, queryParams)` state: a declared parameter whose
argument value is defined substitutes its placeholder (percent-encoded) when
`in` is `path`, or is stored raw in the query mapping when `in` is `query`;
other parameters (and undefined arguments) leave the state unchanged. -/
def applyParam (args : List (String × Json)) (acc : String × List (String × Json))
    (p : Param) : String × List (String × Json) :=
  match lookupA args p.name with
  | some value =>
      if p.«in» = "path" then
        (replaceFirst acc.1 ("\x7b" ++ p.name ++ "\x7d") (encodeURIComponent value.jsToString), acc.2)
      else if p.«in» = "query" then
        (acc.1, setA acc.2 p.name value)
      else acc
  | none => acc

/-- The URL and query-parameter construction of `executeApiCall` (lines
362-378): start from the path template and an empty query mapping, then fold
the declared parameters through `applyParam`. -/
def buildUrlAndQuery (path : String) (params : List Param) (args : List (String × Json)) :
    String × List (String × Json) :=
  params.foldl (applyParam args) (path, [])

/-- The lowercased methods with request-body handling (lines 252, 388). -/
def mutatingMethods : List String := ["post", "put", "patch"]

/-- The resolved request-body schema the dispatcher consults (lines
396-401): re-look up the path item and operation by key, and when the
operation has a truthy `requestBody`, resolve it as a reference and deeply
resolve the optional chain `content?.['application/json']?.schema` (an
undefined chain stays undefined, since `deepResolveSchema` returns
non-object input unchanged). -/
def resolvedBodySchema (spec : Spec) (pathKey method : String) : Option Json :=
  (lookupA spec.paths pathKey).bind (fun pathItem =>
    (lookupA pathItem method).bind (fun op =>
      match op.requestBody with
      | some rb =>
          if rb.truthy then
            let requestBodyDef := resolveSchemaRef spec.root rb
            ((((requestBodyDef.getField "content").bind
                (fun c => c.getField "application/json")).bind
                (fun m => m.getField "schema")).map
                (fun s => deepResolveSchema spec.root s 0))
          else none
      | none => none))

/-- JS `Object.keys`, as applied to `schema.properties` on line 405: field
names of an object, string indices of an array or a string, nothing for
other primitives. -/
def jsObjectKeys : Json → List String
  | .obj fs => fs.map (fun kv => kv.1)
  | .arr xs => (List.range xs.length).map (fun i => toString i)
  | .str s => (List.range s.length).map (fun i => toString i)
  | _ => []

/-- The property names of the resolved request-body schema (lines 404-405):
the keys of `schema.properties` when that member is truthy. -/
def declaredBodyKeys (spec : Spec) (pathKey method : String) : List String :=
  match resolvedBodySchema spec pathKey method with
  | some schema =>
      match schema.getField "properties" with
      | some p => if p.truthy then jsObjectKeys p else []
      | none => []
  | none => []

/-- One iteration of the body-building loop (lines 405-409): copy the
argument value for a declared property name into the body when the argument
mapping has that key (`args.hasOwnProperty(propName)`). -/
def bodyStep (args : List (String × Json)) (acc : List (String × Json)) (k : String) :
    List (String × Json) :=
  match lookupA args k with
  | some v => setA acc k v
  | none => acc

/-- The request-body object built from exposed properties (lines 395-411). -/
def buildRequestBody (spec : Spec) (pathKey method : String)
    (args : List (String × Json)) : List (String × Json) :=
  (declaredBodyKeys spec pathKey method).foldl (bodyStep args) []

/-- The `requestConfig` object assembled by `executeApiCall` (lines
380-417): uppercased method, substituted URL, query mapping, and optional
request body (`data`). -/
structure RequestConfig where
  method : String
  url : String
  params : List (String × Json)
  data : Option Json

/-- `executeApiCall` up to the point where the HTTP request is issued (lines
332-419): re-scan the specification for the operation whose recomputed tool
name matches (error `No operation found for tool: ...` otherwise — the
`OpenAPI spec not loaded` throw cannot fire after startup, since the handler
only runs once loading completed), build the URL and query mapping, and for
mutating methods attach the request body: a truthy `requestBody` argument
verbatim, else the schema-declared properties present in the arguments, and
no body at all when that object is empty.  Thrown errors are modelled as
`Except.error` with the `Error` message. -/
def executeApiCallPrep (spec : Spec) (toolName : String) (args : List (String × Json)) :
    Except String RequestConfig :=
  match findOperation spec.paths toolName with
  | none => .error ("No operation found for tool: " ++ toolName)
  | some (method, pathKey, op) =>
      let uq := buildUrlAndQuery pathKey op.parameters args
      let base : RequestConfig :=
        { method := strToUpper method, url := uq.1, params := uq.2, data := none }
      if mutatingMethods.contains (strToLower method) then
        let fromSchema : RequestConfig :=
          let body := buildRequestBody spec pathKey method args
          if body.isEmpty then base else { base with data := some (.obj body) }
        match lookupA args "requestBody" with
        | some rb => if rb.truthy then .ok { base with data := some rb } else .ok fromSchema
        | none => .ok fromSchema
      else .ok base

/-- The structured success result of a dispatched call (lines 423-427). -/
structure ApiResponse where
  status : Int
  statusText : String
  data : Json

/-- The tool-call response payload (lines 308-327): either the serialised
success result (the transport serialises the `ApiResponse` via the JS
runtime's `JSON.stringify`), or the error payload
`\x7bcontent: [\x7btype: "text", text: "Error: <message>"\x7d], isError: true\x7d`,
represented by its text. -/
inductive ToolCallOutcome where
  | success (result : ApiResponse)
  | errorText (text : String)

/-- The names held by the tool registry after `generateTools` (lines
134-158): one tool per specification entry, named by `generateToolName`
(`createToolFromOperation` always returns a descriptor, so none are
dropped). -/
def generateToolNames (spec : Spec) : List String :=
  (specEntries spec.paths).map entryName

/-- The `CallToolRequest` handler (lines 292-329): look the requested name
up in the generated tool registry, throwing `Tool <name> not found` when
absent; otherwise dispatch via `executeApiCall`.  Every thrown error is
caught at the handler boundary and mapped to the error payload
`Error: <message>` with `isError: true`.  The outbound HTTP transport
(`this.httpClient.request` together with the axios error wrapping of lines
421-433) is the external collaborator `http`, yielding either a response or
a thrown-error message. -/
def handleCallTool (spec : Spec) (name : String) (args : List (String × Json))
    (http : RequestConfig → Except String ApiResponse) : ToolCallOutcome :=
  if (generateToolNames spec).contains name then
    match executeApiCallPrep spec name args with
    | .error msg => .errorText ("Error: " ++ msg)
    | .ok cfg =>
        match http cfg with
        | .ok resp => .success resp
        | .error msg => .errorText ("Error: " ++ msg)
  else .errorText ("Error: " ++ ("Tool " ++ name ++ " not found"))

/-- Absence of `$ref` markers in the properties/items tree that
`deepResolveSchema` traverses, to depth `fuel`: the node itself carries no
(truthy string) `$ref`, and every child reachable through a `properties`
entry or an `items` member satisfies the same one level down.  A schema has
no `$ref` anywhere in its properties/items tree iff this holds for every
`fuel`. -/
def noRefWithin : Nat → Json → Bool
  | 0, _ => true
  | fuel + 1, j =>
      j.refString.isNone &&
      (match j.getField "properties" with
       | some (.obj pf) => pf.all (fun kv => noRefWithin fuel kv.2)
       | some (.arr xs) => xs.all (fun x => noRefWithin fuel x)
       | _ => true) &&
      (match j.getField "items" with
       | some it => noRefWithin fuel it
       | none => true)

/-- String content of a JSON value, used to separate distinct concrete
schema nodes in proofs. -/
def Json.asString : Json → Option String
  | .str s => some s
  | _ => none

/-! Concrete specifications and inputs used by the counterexamples and
witnesses below. -/

/-- An operation with `operationId: "dup"` and nothing else. -/
def opDupA : Operation := { operationId := some "dup" }

/-- A second, distinct operation with the same `operationId: "dup"`. -/
def opDupB : Operation := { operationId := some "dup", summary := some "B" }

/-- A paths table whose two operations generate the same tool name. -/
def pathsDup : List (String × List (String × Operation)) :=
  [("/a", [("get", opDupA)]), ("/b", [("get", opDupB)])]

/-- Component schema `B`: a plain string schema. -/
def schemaB : Json := .obj [("type", .str "string")]

/-- A reference node pointing at component `B`. -/
def refToB : Json := .obj [("$ref", .str "#/components/schemas/B")]

/-- Component schema `A`, whose property `x` is a reference to `B`. -/
def schemaA : Json := .obj [("properties", .obj [("x", refToB)])]

/-- A specification whose components contain `A` (with a `$ref` child) and
`B`, and whose sole operation posts a body described by `A` — so tool
generation (line 260) and dispatch (line 401) both run `deepResolveSchema`
on nodes of this document. -/
def specMut : Spec :=
  { root := .obj
      [("components", .obj [("schemas", .obj [("A", schemaA), ("B", schemaB)])])],
    paths := [("/things", [("post",
      { requestBody := some (.obj [("content", .obj [("application/json",
          .obj [("schema", .obj [("$ref", .str "#/components/schemas/A")])])])]) })])] }

/-- An operation carrying a stable identifier. -/
def opGetA : Operation := { operationId := some "getA" }

/-- A one-operation specification used for unknown-tool dispatch. -/
def specOne : Spec :=
  { root := .obj [], paths := [("/a", [("get", opGetA)])] }

/-- An HTTP transport that is never reached in the scenarios using it. -/
def httpNever : RequestConfig → Except String ApiResponse :=
  fun _ => .error "unreachable"

/-- A specification with a single bodyless `POST /x` operation. -/
def specPost : Spec :=
  { root := .obj [], paths := [("/x", [("post", {})])] }

/-- An argument mapping whose `requestBody` key holds the falsy value
`false`. -/
def argsFalsyRB : List (String × Json) := [("requestBody", .bool false)]

/-- The two declared path parameters of the specification's URL-building
example. -/
def paramsFabricNode : List Param :=
  [{ name := "fabricId", «in» := "path" }, { name := "nodeId", «in» := "path" }]

/-- The argument mapping of the URL-building example. -/
def argsFabricNode : List (String × Json) :=
  [("fabricId", .str "f1"), ("nodeId", .str "n2")]

/-- The same arguments with reserved characters in the first value. -/
def argsFabricNodeReserved : List (String × Json) :=
  [("fabricId", .str "f 1/x"), ("nodeId", .str "n2")]

/-- A root whose component `A` refers back to itself through property `x`:
a reference cycle. -/
def cyclicRoot : Json :=
  .obj [("components", .obj [("schemas", .obj
    [("A", .obj [("properties", .obj
      [("x", .obj [("$ref", .str "#/components/schemas/A")])])])])])]

/-- The reference node entering the cycle. -/
def refToCyclicA : Json := .obj [("$ref", .str "#/components/schemas/A")]

/-- One unfolding layer of the cyclic component `A` around a child. -/
def cycleLayer (child : Json) : Json :=
  .obj [("properties", .obj [("x", child)])]

/-- The declared path parameter `nodeId`. -/
def paramNodeId : Param := { name := "nodeId", «in» := "path", required := some true }

/-- An operation declaring only the path parameter `nodeId`. -/
def opNodeGet : Operation := { parameters := [paramNodeId] }

/-- A specification with one `GET /nodes/\x7bnodeId\x7d` operation declaring the
path parameter `nodeId`. -/
def specNode : Spec :=
  { root := .obj [], paths := [("/nodes/{nodeId}", [("get", opNodeGet)])] }

/-- An operation with neither `operationId` nor parameters. -/
def opNoId : Operation := {}

/-- An operation whose `operationId` is the Hyperfabric-style identifier. -/
def opWithId : Operation := { operationId := some "fabricsGetAllFabrics" }

/-- A declared query parameter `limit`. -/
def paramLimit : Param := { name := "limit", «in» := "query" }

/-- The request-body schema of the `POST /fabrics` scenario: it declares
the required array property `fabrics`. -/
def fabricsBodySchema : Json :=
  .obj [("type", .str "object"),
    ("properties", .obj [("fabrics", .obj [("type", .str "array")])]),
    ("required", .arr [.str "fabrics"])]

/-- The `POST /fabrics` operation with an inline request-body schema. -/
def opPostFabrics : Operation :=
  { requestBody := some (.obj [("content", .obj [("application/json",
      .obj [("schema", fabricsBodySchema)])])]) }

/-- A specification with the single `POST /fabrics` operation. -/
def specFab : Spec :=
  { root := .obj [], paths := [("/fabrics", [("post", opPostFabrics)])] }

/-- A reference node whose pointer has no target in the specification. -/
def refMissing : Json := .obj [("$ref", .str "#/components/schemas/Missing")]

/-- A leaf schema with no references. -/
def noRefLeaf : Json := .obj [("type", .str "integer")]

/-- A reference-free schema with one nested property. -/
def noRefSample : Json :=
  .obj [("type", .str "object"), ("properties", .obj [("x", noRefLeaf)])]

/-- The closing-brace character of a path placeholder. -/
def rbrace : Char := Char.ofNat 125

/-- Characters other than the two placeholder braces.  Parameter names of a
well-formed path template consist of such characters — a brace inside a
name would break the `\x7bname\x7d` template grammar the specification's
data model prescribes for paths. -/
def braceFreeChar (c : Char) : Bool := c ≠ lbrace && c ≠ rbrace

/-- A string containing neither placeholder brace. -/
def braceFree (s : String) : Bool := s.toList.all braceFreeChar

/-- Whether `pat` occurs as a contiguous substring of `s` (via the same
leftmost-occurrence search `replaceFirst` uses). -/
def containsSub (s pat : String) : Bool := (splitAtFirst pat.toList s.toList).isSome

/-- An operation declaring the two path parameters of the
`/fabrics/\x7bfabricId\x7d/nodes/\x7bnodeId\x7d` template. -/
def opFabricNodeGet : Operation := { parameters := paramsFabricNode }

/-- A specification with one `GET /fabrics/\x7bfabricId\x7d/nodes/\x7bnodeId\x7d`
operation declaring both path parameters. -/
def specFabricNode : Spec :=
  { root := .obj [],
    paths := [("/fabrics/{fabricId}/nodes/{nodeId}", [("get", opFabricNodeGet)])] }

/-! ### Association-list lemmas -/

/-- Writing back the value a key already holds leaves the list unchanged. -/
theorem setA_self {α : Type} : ∀ {l : List (String × α)} {k : String} {v : α},
    lookupA l k = some v → setA l k v = l
  | [], k, v, h => by simp [lookupA] at h
  | (k', w) :: rest, k, v, h => by
      by_cases hk : k' = k
      · subst hk
        simp [lookupA] at h
        simp [setA, h]
      · simp [lookupA, hk] at h
        simp [setA, hk, setA_self h]

/-- Lookup after an assignment: the assigned key reads the new value, any
other key is unaffected. -/
theorem lookupA_setA {α : Type} : ∀ (l : List (String × α)) (a : String) (w : α) (k : String),
    lookupA (setA l a w) k = if a = k then some w else lookupA l k
  | [], a, w, k => by by_cases h : a = k <;> simp [setA, lookupA, h]
  | (k', v') :: rest, a, w, k => by
      by_cases hk : k' = a
      · subst hk
        by_cases h : k' = k <;> simp [setA, lookupA, h]
      · simp [setA, hk]
        by_cases h : k' = k
        · subst h
          have hne : ¬ (k' = k') → False := fun hc => hc rfl
          by_cases hak : a = k'
          · exact absurd hak.symm hk
          · simp [lookupA, hak]
        · simp [lookupA, h, lookupA_setA rest a w k]

/-- Membership in an assigned list comes from the assignment itself or from
the original list. -/
theorem mem_setA {α : Type} : ∀ {l : List (String × α)} {a k : String} {w v : α},
    (k, v) ∈ setA l a w → (k = a ∧ v = w) ∨ (k, v) ∈ l
  | [], a, k, w, v, h => by
      simp [setA] at h
      exact Or.inl ⟨h.1, h.2⟩
  | (k', v') :: rest, a, k, w, v, h => by
      by_cases hk : k' = a
      · subst hk
        simp [setA] at h
        rcases h with ⟨h1, h2⟩ | h
        · exact Or.inl ⟨h1, h2⟩
        · exact Or.inr (List.mem_cons_of_mem _ h)
      · simp [setA, hk] at h
        rcases h with ⟨h1, h2⟩ | h
        · exact Or.inr (by simp [h1, h2])
        · rcases mem_setA h with h' | h'
          · exact Or.inl h'
          · exact Or.inr (List.mem_cons_of_mem _ h')

/-- The assignment itself is a member of the assigned list. -/
theorem setA_mem_self {α : Type} : ∀ (l : List (String × α)) (a : String) (w : α),
    (a, w) ∈ setA l a w
  | [], a, w => by simp [setA]
  | (k', v') :: rest, a, w => by
      by_cases hk : k' = a
      · simp [setA, hk]
      · simp [setA, hk]
        exact Or.inr (setA_mem_self rest a w)

/-- Entries whose key differs from the assigned key survive an assignment. -/
theorem mem_setA_of_ne {α : Type} : ∀ {l : List (String × α)} {a k : String} {w v : α},
    (k, v) ∈ l → k ≠ a → (k, v) ∈ setA l a w
  | [], a, k, w, v, h, hne => by simp at h
  | (k', v') :: rest, a, k, w, v, h, hne => by
      by_cases hk : k' = a
      · subst hk
        rcases List.mem_cons.mp h with h' | h'
        · exact absurd (congrArg Prod.fst h') hne
        · simp [setA]
          exact Or.inr h'
      · rcases List.mem_cons.mp h with h' | h'
        · simp [setA, hk, h']
        · simp [setA, hk]
          exact Or.inr (mem_setA_of_ne h' hne)

/-! ### Schema-resolution lemmas -/

/-- Assigning to a field the value it already holds is the identity. -/
theorem setField_self {j : Json} {k : String} {v : Json}
    (h : j.getField k = some v) : j.setField k v = j := by
  cases j with
  | obj fs =>
      simp [Json.getField] at h
      simp [Json.setField, setA_self h]
  | null => simp [Json.getField] at h
  | bool b => simp [Json.getField] at h
  | num n => simp [Json.getField] at h
  | str s => simp [Json.getField] at h
  | arr xs => simp [Json.getField] at h

/-- Deep resolution is the identity on schemas whose properties/items tree
carries no `$ref` down to the available budget. -/
theorem deepResolveFuel_noRef : ∀ (fuel : Nat) (root s : Json),
    noRefWithin fuel s = true → deepResolveFuel root fuel s = s := by
  intro fuel
  induction fuel with
  | zero => intro root s _; rfl
  | succ f ih =>
      intro root s h
      by_cases hobj : s.isObjectLike = true
      · simp only [noRefWithin, Bool.and_eq_true] at h
        obtain ⟨⟨href, hprops⟩, hitems⟩ := h
        have hs1 : (if s.refString.isSome then resolveSchemaRef root s else s) = s := by
          rcases hr : s.refString with _ | r
          · simp
          · rw [hr] at href; simp [Option.isSome] at href
        simp only [deepResolveFuel, hobj, if_true]
        rw [hs1]
        have hs2 :
            (match s.getField "properties" with
             | some (.obj pf) =>
                 s.setField "properties"
                   (.obj (pf.map (fun (kv : String × Json) => (kv.1, deepResolveFuel root f kv.2))))
             | some (.arr xs) =>
                 s.setField "properties" (.arr (xs.map (fun x => deepResolveFuel root f x)))
             | _ => s) = s := by
          rcases hp : s.getField "properties" with _ | p
          · simp
          · cases p with
            | obj pf =>
                rw [hp] at hprops
                simp only [List.all_eq_true] at hprops
                have hmap : pf.map (fun (kv : String × Json) => (kv.1, deepResolveFuel root f kv.2)) = pf := by
                  have h1 : pf.map (fun (kv : String × Json) => (kv.1, deepResolveFuel root f kv.2))
                      = pf.map id :=
                    List.map_congr_left (fun kv hkv => by simp [ih root kv.2 (hprops kv hkv)])
                  simpa using h1
                simp [hmap, setField_self hp]
            | arr xs =>
                rw [hp] at hprops
                simp only [List.all_eq_true] at hprops
                have hmap : xs.map (fun x => deepResolveFuel root f x) = xs := by
                  have h1 : xs.map (fun x => deepResolveFuel root f x) = xs.map id :=
                    List.map_congr_left (fun x hx => by simp [ih root x (hprops x hx)])
                  simpa using h1
                simp [hmap, setField_self hp]
            | null => simp
            | bool b => simp
            | num n => simp
            | str st => simp
        rw [hs2]
        rcases hi : s.getField "items" with _ | it
        · simp
        · rw [hi] at hitems
          simp only []
          by_cases ht : it.truthy = true
          · simp [ht, ih root it hitems, setField_self hi]
          · simp [ht]
      · simp only [Bool.not_eq_true] at hobj
        cases s with
        | obj fs => simp [Json.isObjectLike] at hobj
        | arr xs => simp [Json.isObjectLike] at hobj
        | null => rfl
        | bool b => rfl
        | num n => rfl
        | str st => rfl

/-! ### Dispatch-scan lemmas -/

/-- The inner scan misses exactly when no method entry of the path item
generates the requested name. -/
theorem findInPathItem_eq_none_iff {pathKey toolName : String} :
    ∀ {items : List (String × Operation)},
      findInPathItem pathKey toolName items = none ↔
        ∀ me ∈ items, generateToolName me.1 pathKey me.2 ≠ toolName
  | [] => by simp [findInPathItem]
  | (m, op) :: rest => by
      by_cases h : generateToolName m pathKey op = toolName
      · simp [findInPathItem, h]
      · simp only [findInPathItem, h, if_false, List.mem_cons]
        rw [@findInPathItem_eq_none_iff pathKey toolName rest]
        constructor
        · rintro hr me (rfl | hme)
          · exact h
          · exact hr me hme
        · intro hr me hme
          exact hr me (Or.inr hme)

/-- The outer scan misses exactly when no specification entry generates the
requested name. -/
theorem findOperation_eq_none_iff {toolName : String} :
    ∀ {paths : List (String × List (String × Operation))},
      findOperation paths toolName = none ↔
        ∀ e ∈ specEntries paths, entryName e ≠ toolName
  | [] => by simp [findOperation, specEntries]
  | (pathKey, items) :: rest => by
      have hsplit : specEntries ((pathKey, items) :: rest)
          = items.map (fun me => (me.1, pathKey, me.2)) ++ specEntries rest := by
        simp [specEntries]
      rcases hfi : findInPathItem pathKey toolName items with _ | found
      · simp only [findOperation, hfi]
        rw [@findOperation_eq_none_iff toolName rest, hsplit]
        constructor
        · intro hr e he
          rcases List.mem_append.mp he with hm | hm
          · obtain ⟨me, hme, rfl⟩ := List.mem_map.mp hm
            exact findInPathItem_eq_none_iff.mp hfi me hme
          · exact hr e hm
        · intro hr e he
          exact hr e (List.mem_append.mpr (Or.inr he))
      · simp only [findOperation, hfi]
        constructor
        · intro hc; exact absurd hc (by simp)
        · intro hr
          exfalso
          have : ∃ me ∈ items, findInPathItem pathKey toolName items
              = some (me.1, pathKey, me.2) ∧ generateToolName me.1 pathKey me.2 = toolName := by
            clear hsplit hr
            induction items with
            | nil => simp [findInPathItem] at hfi
            | cons head tail ihItems =>
                by_cases hh : generateToolName head.1 pathKey head.2 = toolName
                · refine ⟨head, by simp, ?_, hh⟩
                  simp [findInPathItem, hh]
                · rw [show findInPathItem pathKey toolName (head :: tail)
                      = findInPathItem pathKey toolName tail by
                        cases head with
                        | mk m op => simp [findInPathItem, hh]] at hfi
                  obtain ⟨me, hme, hfi', hname⟩ := ihItems hfi
                  refine ⟨me, by simp [hme], ?_, hname⟩
                  cases head with
                  | mk m op => simp [findInPathItem, hh, hfi']
          obtain ⟨me, hme, _, hname⟩ := this
          exact hr (me.1, pathKey, me.2)
            (hsplit ▸ List.mem_append.mpr (Or.inl (List.mem_map_of_mem _ hme))) hname

/-! ### URL and query-mapping lemmas -/

/-- A parameter step leaves the state unchanged when its argument is
undefined. -/
theorem applyParam_absent {args : List (String × Json)} {acc : String × List (String × Json)}
    {p : Param} (h : lookupA args p.name = none) : applyParam args acc p = acc := by
  simp [applyParam, h]

/-- The whole parameter fold leaves the state unchanged when every declared
parameter's argument is undefined. -/
theorem foldl_applyParam_absent {args : List (String × Json)} :
    ∀ (ps : List Param) (acc : String × List (String × Json)),
      (∀ q ∈ ps, lookupA args q.name = none) →
      ps.foldl (applyParam args) acc = acc
  | [], acc, _ => rfl
  | p :: rest, acc, h => by
      rw [List.foldl_cons, applyParam_absent (h p (by simp))]
      exact foldl_applyParam_absent rest acc (fun q hq => h q (by simp [hq]))

/-- Any entry of the query mapping after one parameter step either was
already there or records that parameter as a declared query parameter with
its raw argument value. -/
theorem applyParam_snd_mem {args : List (String × Json)} {acc : String × List (String × Json)}
    {p : Param} {k : String} {v : Json}
    (h : (k, v) ∈ (applyParam args acc p).2) :
    (k, v) ∈ acc.2 ∨ (p.«in» = "query" ∧ p.name = k ∧ lookupA args k = some v) := by
  rcases ha : lookupA args p.name with _ | value
  · rw [applyParam_absent ha] at h
    exact Or.inl h
  · simp only [applyParam, ha] at h
    by_cases hpath : p.«in» = "path"
    · simp [hpath] at h
      exact Or.inl h
    · by_cases hq : p.«in» = "query"
      · simp [hpath, hq] at h
        rcases mem_setA h with ⟨rfl, rfl⟩ | hmem
        · exact Or.inr ⟨hq, rfl, ha⟩
        · exact Or.inl hmem
      · simp [hpath, hq] at h
        exact Or.inl h

/-- Soundness of the query mapping over the whole fold: every entry either
predates the fold or comes from a declared query parameter present in the
arguments. -/
theorem foldl_applyParam_snd_mem {args : List (String × Json)} {k : String} {v : Json} :
    ∀ (ps : List Param) (acc : String × List (String × Json)),
      (k, v) ∈ (ps.foldl (applyParam args) acc).2 →
      (k, v) ∈ acc.2 ∨ ∃ p ∈ ps, p.«in» = "query" ∧ p.name = k ∧ lookupA args k = some v
  | [], acc, h => Or.inl h
  | p :: rest, acc, h => by
      rcases foldl_applyParam_snd_mem rest (applyParam args acc p) h with h' | ⟨q, hq, hrest⟩
      · rcases applyParam_snd_mem h' with h'' | h''
        · exact Or.inl h''
        · exact Or.inr ⟨p, by simp, h''⟩
      · exact Or.inr ⟨q, by simp [hq], hrest⟩

/-- A key present in the query mapping survives one parameter step. -/
theorem applyParam_keeps_key {args : List (String × Json)} {acc : String × List (String × Json)}
    {p : Param} {key : String}
    (h : ∃ v, (key, v) ∈ acc.2) : ∃ v, (key, v) ∈ (applyParam args acc p).2 := by
  obtain ⟨v, hv⟩ := h
  rcases ha : lookupA args p.name with _ | value
  · exact ⟨v, by rw [applyParam_absent ha]; exact hv⟩
  · simp only [applyParam, ha]
    by_cases hpath : p.«in» = "path"
    · exact ⟨v, by simp [hpath]; exact hv⟩
    · by_cases hq : p.«in» = "query"
      · simp only [hpath, if_false, hq, if_true]
        by_cases hk : key = p.name
        · subst hk
          exact ⟨value, setA_mem_self _ _ _⟩
        · exact ⟨v, mem_setA_of_ne hv hk⟩
      · exact ⟨v, by simp [hpath, hq]; exact hv⟩

/-- A key present in the query mapping survives the rest of the fold. -/
theorem foldl_applyParam_keeps_key {args : List (String × Json)} {key : String} :
    ∀ (ps : List Param) (acc : String × List (String × Json)),
      (∃ v, (key, v) ∈ acc.2) → ∃ v, (key, v) ∈ (ps.foldl (applyParam args) acc).2
  | [], _, h => h
  | p :: rest, acc, h =>
      foldl_applyParam_keeps_key rest (applyParam args acc p) (applyParam_keeps_key h)

/-- Completeness of the query mapping: every declared query parameter whose
argument is defined ends up with an entry in the final mapping. -/
theorem foldl_applyParam_query_complete {args : List (String × Json)} :
    ∀ (ps : List Param) (acc : String × List (String × Json)) (p : Param),
      p ∈ ps → p.«in» = "query" → (lookupA args p.name).isSome →
      ∃ v, (p.name, v) ∈ (ps.foldl (applyParam args) acc).2
  | [], _, p, hp, _, _ => by simp at hp
  | q :: rest, acc, p, hp, hquery, hdef => by
      rcases List.mem_cons.mp hp with rfl | hp'
      · rcases ha : lookupA args p.name with _ | value
        · rw [ha] at hdef; simp at hdef
        · refine foldl_applyParam_keeps_key rest _ ?_
          refine ⟨value, ?_⟩
          simp only [applyParam, ha, hquery]
          by_cases hpath : p.«in» = "path"
          · rw [hpath] at hquery; simp at hquery
          · simp only [hpath, if_false, if_true]
            exact setA_mem_self _ _ _
      · exact foldl_applyParam_query_complete rest (applyParam args acc q) p hp' hquery hdef

/-! ### Request-body lemmas -/

/-- Lookup through the body-building fold: a key reads its argument value
exactly when it is declared (and has one); otherwise the accumulator's
binding shows through. -/
theorem lookupA_foldl_bodyStep {args : List (String × Json)} :
    ∀ (ds : List String) (acc : List (String × Json)) (k : String),
      lookupA (ds.foldl (bodyStep args) acc) k =
        match lookupA args k with
        | some v => if k ∈ ds then some v else lookupA acc k
        | none => lookupA acc k
  | [], acc, k => by rcases lookupA args k with _ | v <;> simp
  | d :: rest, acc, k => by
      rw [List.foldl_cons, lookupA_foldl_bodyStep rest (bodyStep args acc d) k]
      by_cases hkd : k = d
      · subst hkd
        rcases ha : lookupA args k with _ | v
        · simp only [bodyStep, ha]
        · by_cases hrest : k ∈ rest
          · simp [hrest]
          · simp only [bodyStep, ha, hrest, if_false, lookupA_setA, if_pos rfl]
            simp
      · have hdk : ¬ (d = k) := fun h => hkd h.symm
        have hstep : lookupA (bodyStep args acc d) k = lookupA acc k := by
          rcases had : lookupA args d with _ | w
          · simp [bodyStep, had]
          · simp [bodyStep, had, lookupA_setA, hdk]
        rcases ha : lookupA args k with _ | v
        · simp [hstep]
        · simp only [hstep]
          by_cases hrest : k ∈ rest
          · simp [hrest]
          · simp [hrest, hkd]

/-- Inner round-trip: if the names generated from the entries of one path
item are pairwise distinct, the inner scan run on the name generated by one
of its entries returns exactly that entry. -/
theorem findInPathItem_roundtrip {pathKey : String} :
    ∀ {items : List (String × Operation)} {me : String × Operation},
      (items.map (fun me => ((me.1, pathKey, me.2) : Entry))).Pairwise
        (fun a b => entryName a ≠ entryName b) →
      me ∈ items →
      findInPathItem pathKey (entryName (me.1, pathKey, me.2)) items = some (me.1, pathKey, me.2)
  | [], me, _, hme => by simp at hme
  | (m, op) :: rest, me, hpw, hme => by
      rcases List.mem_cons.mp hme with rfl | hme'
      · simp [findInPathItem, entryName]
      · have hne : ¬ (generateToolName m pathKey op = entryName (me.1, pathKey, me.2)) := by
          rw [List.map_cons, List.pairwise_cons] at hpw
          exact hpw.1 _ (List.mem_map_of_mem _ hme')
        have htail : (rest.map (fun me => ((me.1, pathKey, me.2) : Entry))).Pairwise
            (fun a b => entryName a ≠ entryName b) := by
          rw [List.map_cons, List.pairwise_cons] at hpw
          exact hpw.2
        simp only [findInPathItem, hne, if_false]
        exact findInPathItem_roundtrip htail hme'

/-- Outer round-trip: when all generated names of the specification are
pairwise distinct, the dispatch scan run on an entry's generated name finds
exactly that entry. -/
theorem findOperation_roundtrip :
    ∀ {paths : List (String × List (String × Operation))} {e : Entry},
      (specEntries paths).Pairwise (fun a b => entryName a ≠ entryName b) →
      e ∈ specEntries paths →
      findOperation paths (entryName e) = some e
  | [], e, _, he => by simp [specEntries] at he
  | (pathKey, items) :: rest, e, hpw, he => by
      have hsplit : specEntries ((pathKey, items) :: rest)
          = items.map (fun me => ((me.1, pathKey, me.2) : Entry)) ++ specEntries rest := by
        simp [specEntries]
      rw [hsplit] at hpw he
      rw [List.pairwise_append] at hpw
      rcases List.mem_append.mp he with hm | hm
      · obtain ⟨me, hme, rfl⟩ := List.mem_map.mp hm
        have := findInPathItem_roundtrip hpw.1 hme
        simp [findOperation, this]
      · have hnone : findInPathItem pathKey (entryName e) items = none := by
          rw [findInPathItem_eq_none_iff]
          intro me hme
          exact hpw.2.2 _ (List.mem_map_of_mem _ hme) e hm
        simp only [findOperation, hnone]
        exact findOperation_roundtrip hpw.2.1 hm

/-! ### Claim theorems -/

/-- C7: deep schema resolution always terminates (the embedding is a total
function by construction): at recursion depth greater than 5, and on
non-object input, `deepResolveSchema` returns the node unchanged, and on a
concrete specification whose component `A` refers to itself, resolution
returns the finite unfolding truncated at the depth bound instead of
looping. -/
theorem claim_C7_depth_guard :
    (∀ (root s : Json) (d : Nat), 5 < d → deepResolveSchema root s d = s)
    ∧ (∀ (root s : Json) (d : Nat), s.isObjectLike = false → deepResolveSchema root s d = s)
    ∧ deepResolveSchema cyclicRoot refToCyclicA 0
        = cycleLayer (cycleLayer (cycleLayer (cycleLayer (cycleLayer (cycleLayer refToCyclicA))))) := by
  refine ⟨?_, ?_, rfl⟩
  · intro root s d hd
    unfold deepResolveSchema
    rw [show 6 - d = 0 by omega]
    rfl
  · intro root s d hs
    unfold deepResolveSchema
    rcases 6 - d with _ | n
    · rfl
    · simp [deepResolveFuel, hs]

/-- Witness for C7: at depth 6 (beyond the bound of 5) the cyclic reference
node is returned unchanged. -/
theorem claim_C7_witness :
    5 < 6 ∧ deepResolveSchema cyclicRoot refToCyclicA 6 = refToCyclicA :=
  ⟨by decide, claim_C7_depth_guard.1 cyclicRoot refToCyclicA 6 (by decide)⟩

/-- C8: when a node's `$ref` pointer does not dereference to a component of
the specification, `resolveSchemaRef` falls back to the original node (its
`$ref` intact); a node with no `$ref` is returned unchanged (covered by the
hypothesis holding vacuously). -/
theorem claim_C8_unresolvable_fallback :
    ∀ (root s : Json),
      (∀ r, s.refString = some r → derefPointer root r = none) →
      resolveSchemaRef root s = s := by
  intro root s h
  rcases hr : s.refString with _ | r
  · simp [resolveSchemaRef, hr]
  · simp [resolveSchemaRef, hr, h r hr]

/-- Witness for C8: a pointer to a missing component resolves to the
original node. -/
theorem claim_C8_witness :
    resolveSchemaRef (Json.obj []) refMissing = refMissing := by
  refine claim_C8_unresolvable_fallback (Json.obj []) refMissing ?_
  intro r hr
  have : r = "#/components/schemas/Missing" := by
    have h0 : refMissing.refString = some "#/components/schemas/Missing" := rfl
    exact (Option.some.inj (h0.symm.trans hr)).symm
  rw [this]
  rfl

/-- C9: deep resolution is the identity on a schema whose properties/items
tree contains no `$ref` at any depth. -/
theorem claim_C9_idempotent :
    ∀ (root s : Json) (d : Nat),
      (∀ n, noRefWithin n s = true) → deepResolveSchema root s d = s := by
  intro root s d h
  exact deepResolveFuel_noRef (6 - d) root s (h (6 - d))

/-- Witness for C9: a reference-free schema with one nested property is
returned unchanged. -/
theorem claim_C9_witness :
    deepResolveSchema (Json.obj []) noRefSample 0 = noRefSample := by
  refine claim_C9_idempotent (Json.obj []) noRefSample 0 ?_
  intro n
  match n with
  | 0 => rfl
  | 1 => rfl
  | (k + 2) => rfl

/-- Counterexample for C2: the claim that schema resolution leaves the
specification's schema nodes unchanged is false.  `schemaA` is the node
stored at `components.schemas.A` of `specMut.root`, and `deepResolveSchema`
— which the code applies to spec nodes in place during tool generation
(line 260) and dispatch (line 401), assigning into `schema.properties` —
produces a different node: the `$ref` child under `properties.x` is
replaced by the referenced component. -/
theorem claim_C2_counterexample :
    ((specMut.root.getField "components").bind (fun c => c.getField "schemas")).bind
        (fun c => c.getField "A") = some schemaA
    ∧ deepResolveSchema specMut.root schemaA 0 ≠ schemaA := by
  refine ⟨rfl, ?_⟩
  intro h
  have h0 : deepResolveSchema specMut.root schemaA 0
      = Json.obj [("properties", Json.obj [("x", schemaB)])] := rfl
  have h1 := h0.symm.trans h
  have h2 := congrArg
    (fun j => ((j.getField "properties").bind (fun q => q.getField "x")).bind
      (fun x => (x.getField "type").bind Json.asString)) h1
  exact absurd h2 (by decide)

/-- C2 (amended): schema resolution mutates spec schema nodes in place —
resolving the spec node `components.schemas.A`, whose property `x` is a
resolvable `$ref`, rewrites that property to the referenced component, a
value different from the original node; spec nodes are left unchanged only
when resolution finds nothing to rewrite. -/
theorem claim_C2_resolution_mutates :
    ((specMut.root.getField "components").bind (fun c => c.getField "schemas")).bind
        (fun c => c.getField "A") = some schemaA
    ∧ deepResolveSchema specMut.root schemaA 0
        = Json.obj [("properties", Json.obj [("x", schemaB)])]
    ∧ Json.obj [("properties", Json.obj [("x", schemaB)])] ≠ schemaA := by
  refine ⟨rfl, rfl, ?_⟩
  intro h
  have h2 := congrArg
    (fun j => ((j.getField "properties").bind (fun q => q.getField "x")).bind
      (fun x => (x.getField "type").bind Json.asString)) h
  exact absurd h2 (by decide)

/-- C4: tool-name derivation is a pure function of (method, path,
operation): with a truthy stable identifier it returns that identifier
unchanged; without one the result depends only on the method and the
sanitised path segments (placeholder segments dropped, remaining joined
with `_`, non-alphanumeric characters replaced by `_`), illustrated on two
concrete paths. -/
theorem claim_C4_name_derivation :
    (∀ (m p : String) (op : Operation) (id : String),
        op.operationId = some id → id ≠ "" → generateToolName m p op = id)
    ∧ (∀ (m p q : String) (op op' : Operation),
        (op.operationId = none ∨ op.operationId = some "") →
        (op'.operationId = none ∨ op'.operationId = some "") →
        sanitizedSegments p = sanitizedSegments q →
        generateToolName m p op = generateToolName m q op')
    ∧ generateToolName "get" "/fabrics/{fabricId}/nodes" opNoId = "get_fabrics_nodes"
    ∧ generateToolName "get" "/tele-metry.v2" opNoId = "get_tele_metry_v2" := by
  refine ⟨?_, ?_, rfl, rfl⟩
  · intro m p op id hid hne
    simp [generateToolName, hid, hne]
  · intro m p q op op' hop hop' hseg
    have h1 : generateToolName m p op = fallbackToolName m p := by
      rcases hop with h | h <;> simp [generateToolName, h]
    have h2 : generateToolName m q op' = fallbackToolName m q := by
      rcases hop' with h | h <;> simp [generateToolName, h]
    rw [h1, h2]
    simp [fallbackToolName, hseg]

/-- Witness for C4: an operation with the identifier
`fabricsGetAllFabrics` gets exactly that tool name. -/
theorem claim_C4_witness :
    opWithId.operationId = some "fabricsGetAllFabrics"
    ∧ generateToolName "get" "/fabrics" opWithId = "fabricsGetAllFabrics" :=
  ⟨rfl, claim_C4_name_derivation.1 "get" "/fabrics" opWithId "fabricsGetAllFabrics" rfl
    (by decide)⟩

/-- Counterexample for C1: the round-trip `resolve(deriveName(op)) = op` is
false in general.  In `pathsDup` both operations carry
`operationId: "dup"`, so both tools are named `dup`; the dispatch scan on
the name generated by the second operation returns the first one. -/
theorem claim_C1_counterexample :
    (("get", "/b", opDupB) : Entry) ∈ specEntries pathsDup
    ∧ findOperation pathsDup (entryName ("get", "/b", opDupB)) ≠ some (("get", "/b", opDupB) : Entry) := by
  constructor
  · show (("get", "/b", opDupB) : Entry) ∈
      [(("get", "/a", opDupA) : Entry), (("get", "/b", opDupB) : Entry)]
    exact List.mem_cons_of_mem _ (List.mem_cons_self _ _)
  · intro h
    have h0 : findOperation pathsDup (entryName ("get", "/b", opDupB))
        = some (("get", "/a", opDupA) : Entry) := rfl
    have h1 := Option.some.inj (h0.symm.trans h)
    have h2 := congrArg (fun e : Entry => e.2.1) h1
    exact absurd h2 (by decide)

/-- C1 (amended): when the generated names of the loaded specification's
operations are pairwise distinct, the dispatch-time scan of
`executeApiCall`, which recomputes `generateToolName` for every entry,
finds exactly the operation that produced the requested tool name; without
that uniqueness it returns the first matching entry in iteration order. -/
theorem claim_C1_roundtrip (paths : List (String × List (String × Operation))) (e : Entry)
    (huniq : (specEntries paths).Pairwise (fun a b => entryName a ≠ entryName b))
    (he : e ∈ specEntries paths) :
    findOperation paths (entryName e) = some e :=
  findOperation_roundtrip huniq he

/-- Witness for C1: in the one-operation specification the scan on the
generated name returns that operation. -/
theorem claim_C1_witness :
    findOperation specOne.paths (entryName ("get", "/a", opGetA))
      = some (("get", "/a", opGetA) : Entry) := by
  refine claim_C1_roundtrip specOne.paths _ ?_ ?_
  · show ([(("get", "/a", opGetA) : Entry)]).Pairwise (fun a b => entryName a ≠ entryName b)
    exact List.pairwise_singleton _ _
  · show (("get", "/a", opGetA) : Entry) ∈ [(("get", "/a", opGetA) : Entry)]
    exact List.mem_cons_self _ _

/-- Counterexample for C3: dispatching an unknown tool name does not
produce the payload text `Error: No operation found for tool: <name>`.
The handler's registry check fires first and throws
`Tool <name> not found`, so the payload text is
`Error: Tool nope not found`. -/
theorem claim_C3_counterexample :
    findOperation specOne.paths "nope" = none
    ∧ handleCallTool specOne "nope" [] httpNever
        ≠ .errorText "Error: No operation found for tool: nope" := by
  refine ⟨rfl, ?_⟩
  intro h
  have h0 : handleCallTool specOne "nope" [] httpNever
      = .errorText "Error: Tool nope not found" := rfl
  have h1 := h0.symm.trans h
  injection h1 with h2
  exact absurd h2 (by decide)

/-- C3 (amended): for every tool-call whose name matches no operation of
the specification, the handler returns the error payload whose text is
exactly `Error: Tool <name> not found` (with `isError: true`), and no
exception crosses the call boundary — the handler is a total function into
payloads.  (The dispatcher's `No operation found for tool:` message is
unreachable for such names, because the registry holds exactly the
generated names and its check precedes the dispatch scan.) -/
theorem claim_C3_unknown_tool (spec : Spec) (name : String) (args : List (String × Json))
    (http : RequestConfig → Except String ApiResponse)
    (h : findOperation spec.paths name = none) :
    handleCallTool spec name args http
      = .errorText ("Error: " ++ ("Tool " ++ name ++ " not found")) := by
  have hnotmem : name ∉ generateToolNames spec := by
    intro hmem
    simp only [generateToolNames] at hmem
    obtain ⟨e, he, hname⟩ := List.mem_map.mp hmem
    exact findOperation_eq_none_iff.mp h e he hname
  have hc : (generateToolNames spec).contains name = false := by simpa using hnotmem
  simp only [handleCallTool, hc, Bool.false_eq_true, if_false]

/-- Witness for C3: the unknown name `nope` against the one-operation
specification yields the `Tool nope not found` payload. -/
theorem claim_C3_witness :
    handleCallTool specOne "nope" [] httpNever
      = .errorText ("Error: " ++ ("Tool " ++ "nope" ++ " not found")) :=
  claim_C3_unknown_tool specOne "nope" [] httpNever rfl

/-- Counterexample for C5: an argument mapping that contains an explicit
`requestBody` key whose value is falsy (`false`) does not have that value
sent as the outgoing body — the code's `if (args.requestBody)` is a
truthiness test, so the dispatch prepares a request with no body at all. -/
theorem claim_C5_counterexample :
    lookupA argsFalsyRB "requestBody" = some (.bool false)
    ∧ (executeApiCallPrep specPost "post_x" argsFalsyRB).map (fun c => c.data)
        ≠ .ok (some (.bool false)) := by
  refine ⟨rfl, ?_⟩
  intro h
  have h0 : (executeApiCallPrep specPost "post_x" argsFalsyRB).map (fun c => c.data)
      = .ok none := rfl
  have h1 := h0.symm.trans h
  injection h1 with h2
  exact Option.noConfusion h2

/-- C5 (amended): for a dispatched mutating (post/put/patch) operation,
(1) a truthy explicit `requestBody` argument is sent verbatim as the body;
(2) otherwise (key absent or value falsy) the body is the object built from
the schema-declared properties, and when that object is empty no body is
sent; (3) the built body holds exactly the declared properties of the
operation's resolved request-body schema that are present in the argument
mapping, with their argument values. -/
theorem claim_C5_request_body (spec : Spec) (name : String) (args : List (String × Json))
    (method pathKey : String) (op : Operation)
    (hfind : findOperation spec.paths name = some (method, pathKey, op))
    (hmut : mutatingMethods.contains (strToLower method) = true) :
    (∀ rb, lookupA args "requestBody" = some rb → rb.truthy = true →
        ∃ cfg, executeApiCallPrep spec name args = .ok cfg ∧ cfg.data = some rb)
    ∧ ((match lookupA args "requestBody" with
          | some rb => rb.truthy = false
          | none => True) →
        ∃ cfg, executeApiCallPrep spec name args = .ok cfg ∧
          cfg.data = (if (buildRequestBody spec pathKey method args).isEmpty then none
            else some (.obj (buildRequestBody spec pathKey method args))))
    ∧ (∀ k v, lookupA (buildRequestBody spec pathKey method args) k = some v ↔
        (k ∈ declaredBodyKeys spec pathKey method ∧ lookupA args k = some v)) := by
  refine ⟨?_, ?_, ?_⟩
  · intro rb hrb htruthy
    simp only [executeApiCallPrep, hfind, hmut, if_true, hrb, htruthy]
    exact ⟨_, rfl, rfl⟩
  · intro hfalsy
    rcases hrb : lookupA args "requestBody" with _ | rb
    · simp only [executeApiCallPrep, hfind, hmut, if_true, hrb]
      by_cases hempty : (buildRequestBody spec pathKey method args).isEmpty
      · simp only [hempty, if_true]
        exact ⟨_, rfl, rfl⟩
      · simp only [hempty, if_false]
        exact ⟨_, rfl, rfl⟩
    · rw [hrb] at hfalsy
      simp only [executeApiCallPrep, hfind, hmut, if_true, hrb, hfalsy, Bool.false_eq_true,
        if_false]
      by_cases hempty : (buildRequestBody spec pathKey method args).isEmpty
      · simp only [hempty, if_true]
        exact ⟨_, rfl, rfl⟩
      · simp only [hempty, if_false]
        exact ⟨_, rfl, rfl⟩
  · intro k v
    unfold buildRequestBody
    rw [lookupA_foldl_bodyStep]
    rcases ha : lookupA args k with _ | w
    · simp [lookupA]
    · by_cases hmem : k ∈ declaredBodyKeys spec pathKey method
      · simp [hmem]
      · simp [hmem, lookupA]

/-- Witness for C5: a truthy explicit `requestBody` argument against
`POST /fabrics` is sent verbatim as the outgoing body. -/
theorem claim_C5_witness :
    ∃ cfg, executeApiCallPrep specFab "post_fabrics"
        [("requestBody", Json.obj [("fabrics", Json.arr [Json.obj [("name", Json.str "f1")]])])]
          = .ok cfg
      ∧ cfg.data = some (Json.obj [("fabrics", Json.arr [Json.obj [("name", Json.str "f1")]])]) :=
  (claim_C5_request_body specFab "post_fabrics" _ "post" "/fabrics" opPostFabrics rfl rfl).1
    _ rfl rfl

/-- C6: URL building at dispatch.  The specification's example template
`/fabrics/\x7bfabricId\x7d/nodes/\x7bnodeId\x7d` with arguments `f1`/`n2` yields
`/fabrics/f1/nodes/n2`; a value with reserved characters is
percent-encoded; and in general the query mapping after the parameter loop
contains exactly entries of declared `query` parameters present in the
arguments, holding the raw (not additionally URL-encoded) argument
values. -/
theorem claim_C6_url_building :
    buildUrlAndQuery "/fabrics/{fabricId}/nodes/{nodeId}" paramsFabricNode argsFabricNode
        = ("/fabrics/f1/nodes/n2", [])
    ∧ buildUrlAndQuery "/fabrics/{fabricId}/nodes/{nodeId}" paramsFabricNode argsFabricNodeReserved
        = ("/fabrics/f%201%2Fx/nodes/n2", [])
    ∧ (∀ (path : String) (ps : List Param) (args : List (String × Json)) (k : String) (v : Json),
        (k, v) ∈ (buildUrlAndQuery path ps args).2 →
        ∃ p ∈ ps, p.«in» = "query" ∧ p.name = k ∧ lookupA args k = some v)
    ∧ (∀ (path : String) (ps : List Param) (args : List (String × Json)) (p : Param),
        p ∈ ps → p.«in» = "query" → (lookupA args p.name).isSome →
        ∃ v, (p.name, v) ∈ (buildUrlAndQuery path ps args).2) := by
  refine ⟨?_, ?_, ?_, ?_⟩
  · simp [buildUrlAndQuery, paramsFabricNode, argsFabricNode, applyParam, lookupA,
      Json.jsToString]
    rfl
  · simp [buildUrlAndQuery, paramsFabricNode, argsFabricNodeReserved, applyParam, lookupA,
      Json.jsToString]
    rfl
  · intro path ps args k v h
    rcases foldl_applyParam_snd_mem ps (path, []) h with h' | ⟨p, hp, hq, hk, hv⟩
    · simp at h'
    · exact ⟨p, hp, hq, hk, hv⟩
  · intro path ps args p hp hq hdef
    exact foldl_applyParam_query_complete ps (path, []) p hp hq hdef

/-- Witness for C6: a declared query parameter `limit` present in the
arguments ends up in the query mapping. -/
theorem claim_C6_witness :
    paramLimit.«in» = "query"
    ∧ ∃ v, ("limit", v) ∈ (buildUrlAndQuery "/q" [paramLimit] [("limit", Json.num 10)]).2 :=
  ⟨rfl, claim_C6_url_building.2.2.2 "/q" [paramLimit] [("limit", Json.num 10)] paramLimit
    (List.mem_cons_self _ _) rfl rfl⟩

/-! ### Placeholder-preservation lemmas

The URL-building loop replaces only leftmost occurrences of `\x7bname\x7d`
placeholders.  Two placeholders with distinct, brace-free names can never
occupy overlapping character ranges, so substituting one cannot destroy an
occurrence of the other.  The following lemmas establish this and lift it
through `replaceFirst` and the parameter fold. -/

/-- A pattern leads every list it prefixes. -/
theorem leadsWith_append_self : ∀ (pat rest : List Char), leadsWith pat (pat ++ rest) = true
  | [], _ => rfl
  | p :: ps, rest => by simp [leadsWith, leadsWith_append_self ps rest]

/-- Splitting off a leading pattern reconstructs the list. -/
theorem dropLeading_of_leadsWith : ∀ {pat l : List Char},
    leadsWith pat l = true → l = pat ++ dropLeading pat l
  | [], _, _ => rfl
  | p :: ps, [], h => by simp [leadsWith] at h
  | p :: ps, c :: cs, h => by
      simp only [leadsWith, Bool.and_eq_true, decide_eq_true_eq] at h
      obtain ⟨rfl, h2⟩ := h
      simpa [dropLeading] using dropLeading_of_leadsWith h2

/-- Soundness of the leftmost-occurrence search: a hit decomposes the
list. -/
theorem splitAtFirst_sound : ∀ {pat l pre post : List Char},
    splitAtFirst pat l = some (pre, post) → l = pre ++ (pat ++ post)
  | pat, [], pre, post, h => by simp [splitAtFirst] at h
  | pat, c :: cs, pre, post, h => by
      by_cases hl : leadsWith pat (c :: cs) = true
      · simp only [splitAtFirst, hl, if_true, Option.some.injEq, Prod.mk.injEq] at h
        obtain ⟨rfl, rfl⟩ := h
        simpa using dropLeading_of_leadsWith hl
      · rcases hs : splitAtFirst pat cs with _ | ⟨pre', post'⟩
        · simp [splitAtFirst, hl, hs] at h
        · simp only [splitAtFirst, hl, if_false, hs, Option.some.injEq, Prod.mk.injEq] at h
          obtain ⟨rfl, rfl⟩ := h
          simpa using splitAtFirst_sound hs

/-- Completeness of the search: a decomposable list yields a hit. -/
theorem splitAtFirst_complete : ∀ (pre : List Char) {pat : List Char} (post : List Char),
    pat ≠ [] → (splitAtFirst pat (pre ++ (pat ++ post))).isSome = true
  | [], pat, post, hne => by
      rcases hp : pat with _ | ⟨x, xs⟩
      · exact absurd hp hne
      · have hl : leadsWith (x :: xs) (x :: (xs ++ post)) = true := by
          have := leadsWith_append_self (x :: xs) post
          simpa using this
        simp only [List.nil_append, List.cons_append, splitAtFirst, List.append_eq, hl,
          if_true, Option.isSome_some]
  | c :: pre', pat, post, hne => by
      have ih := splitAtFirst_complete pre' post hne
      by_cases hl : leadsWith pat (c :: (pre' ++ (pat ++ post))) = true
      · simp only [List.cons_append, splitAtFirst, List.append_eq, hl, if_true,
          Option.isSome_some]
      · have hl' : leadsWith pat (c :: (pre' ++ (pat ++ post))) = false := by
          simpa using hl
        rcases hs : splitAtFirst pat (pre' ++ (pat ++ post)) with _ | ⟨a, b⟩
        · rw [hs] at ih
          simp at ih
        · simp only [List.cons_append, splitAtFirst, List.append_eq, hl', Bool.false_eq_true,
            if_false, hs, Option.isSome_some]

/-- Two brace-closed tokens with brace-free interiors that start at the same
position have the same interior. -/
theorem brace_token_prefix_eq {n₁ n₂ t₁ t₂ : List Char}
    (hb₁ : n₁.all braceFreeChar = true) (hb₂ : n₂.all braceFreeChar = true)
    (heq : n₁ ++ rbrace :: t₁ = n₂ ++ rbrace :: t₂) : n₁ = n₂ := by
  rcases List.append_eq_append_iff.mp heq with ⟨f, hf1, hf2⟩ | ⟨f, hf1, hf2⟩
  · rcases f with _ | ⟨y, f'⟩
    · simpa using hf1.symm
    · simp only [List.cons_append] at hf2
      injection hf2 with hy _
      have hmem : rbrace ∈ n₂ := by
        rw [hf1, ← hy]
        exact List.mem_append_right _ (List.mem_cons_self _ _)
      have hfree := List.all_eq_true.mp hb₂ _ hmem
      simp [braceFreeChar] at hfree
  · rcases f with _ | ⟨y, f'⟩
    · simpa using hf1
    · simp only [List.cons_append] at hf2
      injection hf2 with hy _
      have hmem : rbrace ∈ n₁ := by
        rw [hf1, ← hy]
        exact List.mem_append_right _ (List.mem_cons_self _ _)
      have hfree := List.all_eq_true.mp hb₁ _ hmem
      simp [braceFreeChar] at hfree

/-- Occurrences of two placeholders with distinct brace-free names never
overlap: if one word carries both decompositions, the second placeholder
lies entirely before or entirely after the first, so the first's occurrence
survives in the surrounding pieces. -/
theorem brace_occurrences_disjoint {n₁ n₂ : List Char} {a b pre post : List Char}
    (hb₁ : n₁.all braceFreeChar = true) (hb₂ : n₂.all braceFreeChar = true)
    (hne : n₁ ≠ n₂)
    (heq : a ++ lbrace :: (n₁ ++ rbrace :: b) = pre ++ lbrace :: (n₂ ++ rbrace :: post)) :
    (∃ e, pre = a ++ lbrace :: (n₁ ++ rbrace :: e))
    ∨ (∃ e, post = e ++ lbrace :: (n₁ ++ rbrace :: b)) := by
  rcases List.append_eq_append_iff.mp heq with ⟨e, he1, he2⟩ | ⟨e, he1, he2⟩
  · rcases e with _ | ⟨x, e'⟩
    · simp only [List.nil_append] at he2
      injection he2 with _ h2
      exact absurd (brace_token_prefix_eq hb₁ hb₂ h2) hne
    · simp only [List.cons_append] at he2
      injection he2 with hx h2
      rcases List.append_eq_append_iff.mp h2 with ⟨f, hf1, hf2⟩ | ⟨f, hf1, hf2⟩
      · rcases f with _ | ⟨y, f'⟩
        · simp only [List.nil_append] at hf2
          injection hf2 with hy _
          exact absurd hy (by decide)
        · simp only [List.cons_append] at hf2
          injection hf2 with hy _
          refine Or.inl ⟨f', ?_⟩
          rw [he1, hf1, ← hx, ← hy]
      · rcases f with _ | ⟨y, f'⟩
        · simp only [List.nil_append] at hf2
          injection hf2 with hy _
          exact absurd hy (by decide)
        · simp only [List.cons_append] at hf2
          injection hf2 with hy _
          have hmem : lbrace ∈ n₁ := by
            rw [hf1, ← hy]
            exact List.mem_append_right _ (List.mem_cons_self _ _)
          have hfree := List.all_eq_true.mp hb₁ _ hmem
          simp [braceFreeChar] at hfree
  · rcases e with _ | ⟨x, e'⟩
    · simp only [List.nil_append] at he2
      injection he2 with _ h2
      exact absurd (brace_token_prefix_eq hb₂ hb₁ h2).symm hne
    · simp only [List.cons_append] at he2
      injection he2 with hx h2
      rcases List.append_eq_append_iff.mp h2 with ⟨f, hf1, hf2⟩ | ⟨f, hf1, hf2⟩
      · rcases f with _ | ⟨y, f'⟩
        · simp only [List.nil_append] at hf2
          injection hf2 with hy _
          exact absurd hy (by decide)
        · simp only [List.cons_append] at hf2
          injection hf2 with hy hpost
          exact Or.inr ⟨f', hpost⟩
      · rcases f with _ | ⟨y, f'⟩
        · simp only [List.nil_append] at hf2
          injection hf2 with hy _
          exact absurd hy (by decide)
        · simp only [List.cons_append] at hf2
          injection hf2 with hy _
          have hmem : lbrace ∈ n₂ := by
            rw [hf1, ← hy]
            exact List.mem_append_right _ (List.mem_cons_self _ _)
          have hfree := List.all_eq_true.mp hb₂ _ hmem
          simp [braceFreeChar] at hfree

/-- The character list of a `\x7bname\x7d` placeholder pattern. -/
theorem toList_placeholder (n : String) :
    ("\x7b" ++ n ++ "\x7d").toList = lbrace :: (n.toList ++ rbrace :: []) := by
  have h : ("\x7b" ++ n ++ "\x7d").toList = ("\x7b".toList ++ n.toList) ++ "\x7d".toList := rfl
  have h1 : "\x7b".toList = [lbrace] := by decide
  have h2 : "\x7d".toList = [rbrace] := by decide
  rw [h, h1, h2]
  simp

/-- Replacing one placeholder cannot destroy an occurrence of a different
placeholder: distinct brace-free names give disjoint occurrences, so the
occurrence survives in the untouched pieces. -/
theorem replaceFirst_preserves_placeholder {s : String} (repl : String) {n₁ n₂ : String}
    (hb₁ : braceFree n₁ = true) (hb₂ : braceFree n₂ = true) (hne : n₁ ≠ n₂)
    (hocc : containsSub s ("\x7b" ++ n₁ ++ "\x7d") = true) :
    containsSub (replaceFirst s ("\x7b" ++ n₂ ++ "\x7d") repl) ("\x7b" ++ n₁ ++ "\x7d") = true := by
  have hp₁ := toList_placeholder n₁
  have hp₂ := toList_placeholder n₂
  have hne' : n₁.toList ≠ n₂.toList := by
    intro h
    refine hne ?_
    cases n₁ with
    | mk d₁ =>
        cases n₂ with
        | mk d₂ => exact congrArg String.mk (by simpa using h)
  unfold containsSub at hocc ⊢
  unfold replaceFirst
  rcases hs : splitAtFirst (("\x7b" ++ n₂ ++ "\x7d").toList) s.toList with _ | ⟨pre, post⟩
  · exact hocc
  · rcases ho : splitAtFirst (("\x7b" ++ n₁ ++ "\x7d").toList) s.toList with _ | ⟨a, b⟩
    · rw [ho] at hocc
      simp at hocc
    · have hd₁ := splitAtFirst_sound ho
      have hd₂ := splitAtFirst_sound hs
      have heq : a ++ lbrace :: (n₁.toList ++ rbrace :: b)
          = pre ++ lbrace :: (n₂.toList ++ rbrace :: post) := by
        have h0 := hd₁.symm.trans hd₂
        rw [hp₁, hp₂] at h0
        simpa [List.append_assoc] using h0
      have hlist : ((⟨pre⟩ : String) ++ repl ++ (⟨post⟩ : String)).toList
          = pre ++ (repl.toList ++ post) := by
        have : ((⟨pre⟩ : String) ++ repl ++ (⟨post⟩ : String)).toList
            = (pre ++ repl.toList) ++ post := rfl
        rw [this, List.append_assoc]
      have hpatne : ("\x7b" ++ n₁ ++ "\x7d").toList ≠ [] := by
        rw [hp₁]
        simp
      rcases brace_occurrences_disjoint hb₁ hb₂ hne' heq with ⟨e, he⟩ | ⟨e, he⟩
      · rw [hlist, he]
        have hshape : (a ++ lbrace :: (n₁.toList ++ rbrace :: e)) ++ (repl.toList ++ post)
            = a ++ (("\x7b" ++ n₁ ++ "\x7d").toList ++ (e ++ (repl.toList ++ post))) := by
          rw [hp₁]
          simp [List.append_assoc]
        rw [hshape]
        exact splitAtFirst_complete a _ hpatne
      · rw [hlist, he]
        have hshape : pre ++ (repl.toList ++ (e ++ lbrace :: (n₁.toList ++ rbrace :: b)))
            = (pre ++ (repl.toList ++ e)) ++ (("\x7b" ++ n₁ ++ "\x7d").toList ++ b) := by
          rw [hp₁]
          simp [List.append_assoc]
        rw [hshape]
        exact splitAtFirst_complete _ _ hpatne

/-- One parameter step preserves an absent path parameter's placeholder in
the URL: the absent parameter itself is skipped, query and unknown
locations leave the URL untouched, and another path parameter's
substitution cannot overlap the placeholder. -/
theorem applyParam_preserves_placeholder {args : List (String × Json)}
    {acc : String × List (String × Json)} {p q : Param}
    (habs : lookupA args p.name = none)
    (hbp : braceFree p.name = true) (hbq : braceFree q.name = true)
    (hocc : containsSub acc.1 ("\x7b" ++ p.name ++ "\x7d") = true) :
    containsSub (applyParam args acc q).1 ("\x7b" ++ p.name ++ "\x7d") = true := by
  rcases ha : lookupA args q.name with _ | value
  · rw [applyParam_absent ha]
    exact hocc
  · by_cases hsame : q.name = p.name
    · rw [hsame, habs] at ha
      exact Option.noConfusion ha
    · simp only [applyParam, ha]
      by_cases hpath : q.«in» = "path"
      · simp only [hpath, if_true]
        exact replaceFirst_preserves_placeholder _ hbp hbq (fun h => hsame h.symm) hocc
      · by_cases hq : q.«in» = "query"
        · simp only [hpath, if_false, hq, if_true]
          exact hocc
        · simp only [hpath, if_false, hq]
          exact hocc

/-- The whole parameter fold preserves an absent path parameter's
placeholder in the URL, provided all declared parameter names are
brace-free (as the template grammar requires). -/
theorem foldl_applyParam_preserves_placeholder {args : List (String × Json)} {p : Param}
    (habs : lookupA args p.name = none) (hbp : braceFree p.name = true) :
    ∀ (ps : List Param) (acc : String × List (String × Json)),
      (∀ q ∈ ps, braceFree q.name = true) →
      containsSub acc.1 ("\x7b" ++ p.name ++ "\x7d") = true →
      containsSub ((ps.foldl (applyParam args) acc).1) ("\x7b" ++ p.name ++ "\x7d") = true
  | [], _, _, hocc => hocc
  | q :: rest, acc, hbs, hocc =>
      foldl_applyParam_preserves_placeholder habs hbp rest _
        (fun r hr => hbs r (by simp [hr]))
        (applyParam_preserves_placeholder habs hbp (hbs q (by simp)) hocc)

/-- C10: when a dispatched operation declares a path parameter whose
argument is undefined — the other arguments being arbitrary, supplied or
not — `executeApiCall` leaves the literal `\x7bname\x7d` placeholder in the URL
(line 370 only substitutes defined arguments, and, parameter names being
brace-free as the path-template grammar requires, no other substitution can
overlap the placeholder) and still produces a request configuration rather
than a missing-argument error. -/
theorem claim_C10_missing_path_arg (spec : Spec) (name : String) (args : List (String × Json))
    (method pathKey : String) (op : Operation) (p : Param)
    (hfind : findOperation spec.paths name = some (method, pathKey, op))
    (hp : p ∈ op.parameters) (_hpath : p.«in» = "path")
    (habs : lookupA args p.name = none)
    (hnames : ∀ q ∈ op.parameters, braceFree q.name = true)
    (htempl : containsSub pathKey ("\x7b" ++ p.name ++ "\x7d") = true) :
    ∃ cfg, executeApiCallPrep spec name args = .ok cfg
      ∧ containsSub cfg.url ("\x7b" ++ p.name ++ "\x7d") = true := by
  have hurl : containsSub ((buildUrlAndQuery pathKey op.parameters args).1)
      ("\x7b" ++ p.name ++ "\x7d") = true :=
    foldl_applyParam_preserves_placeholder habs (hnames p hp) op.parameters (pathKey, [])
      hnames htempl
  simp only [executeApiCallPrep, hfind]
  by_cases hm : mutatingMethods.contains (strToLower method) = true
  · simp only [hm, if_true]
    rcases lookupA args "requestBody" with _ | rb
    · by_cases hempty : (buildRequestBody spec pathKey method args).isEmpty
      · simp only [hempty, if_true]
        exact ⟨_, rfl, hurl⟩
      · simp only [hempty, if_false]
        exact ⟨_, rfl, hurl⟩
    · by_cases ht : rb.truthy = true
      · simp only [ht, if_true]
        exact ⟨_, rfl, hurl⟩
      · simp only [ht, if_false]
        by_cases hempty : (buildRequestBody spec pathKey method args).isEmpty
        · simp only [hempty, if_true]
          exact ⟨_, rfl, hurl⟩
        · simp only [hempty, if_false]
          exact ⟨_, rfl, hurl⟩
  · simp only [hm, if_false]
    exact ⟨_, rfl, hurl⟩

/-- Witness for C10: `GET /fabrics/\x7bfabricId\x7d/nodes/\x7bnodeId\x7d` dispatched
with only `fabricId` supplied still issues a request, and its URL keeps the
literal `\x7bnodeId\x7d` placeholder. -/
theorem claim_C10_witness :
    ∃ cfg, executeApiCallPrep specFabricNode "get_fabrics_nodes" [("fabricId", Json.str "f1")]
        = .ok cfg
      ∧ containsSub cfg.url ("\x7b" ++ "nodeId" ++ "\x7d") = true :=
  claim_C10_missing_path_arg specFabricNode "get_fabrics_nodes" [("fabricId", Json.str "f1")]
    "get" "/fabrics/{fabricId}/nodes/{nodeId}" opFabricNodeGet
    { name := "nodeId", «in» := "path" } rfl
    (List.mem_cons_of_mem _ (List.mem_cons_self _ _)) rfl rfl
    (by decide) (by decide)
